import Mathlib

/-!
Shallow embedding of the `memflow-LiME` connector (`src/lib.rs`).

The repository parses LiME physical-memory dump files: a concatenation of
`(header, payload)` records.  `LimeHeader` is decoded with `binread` in
little-endian mode (`read_le`) with magic `0x4C69_4D45_u32`; the record
walker in `create_connector` reads headers with `read_exact`, pushes
`(s_addr, mem_section_size, offset)` remaps into a `MemoryMap`, and seeks
past each payload with `SeekFrom::Current(mem_section_size as i64)`.

Bytes are modelled as `Nat` values below 256, files as `List Nat` plus a
cursor position, `u64` arithmetic as `Nat` arithmetic reduced mod `2 ^ 64`,
and the `u64 → i64` cast explicitly.  The external `MemoryMap` is modelled
as the list of `push_remap` calls in the order the walker issues them.
`Error(ErrorOrigin::Connector, kind)` values are modelled together with the
message passed to `log_error` at the error site (`none` when the site logs
nothing), which is how the distinct error sites of the source are
observable.
-/

namespace MemflowLime

/-- Result type modelling Rust `Result<T, E>` (with decidable equality,
which the source types have via `PartialEq`). -/
inductive Res (ε : Type) (α : Type) where
  | ok (val : α)
  | err (e : ε)
deriving DecidableEq

/-- Little-endian interpretation of a byte list: byte 0 is least
significant.  Models how `binread`'s `read_le` assembles multi-byte
integers. -/
def readLE (bs : List Nat) : Nat :=
  bs.foldr (fun b acc => b + 256 * acc) 0

/-- The decoded `LimeHeader` struct of `src/lib.rs` (fields `version`,
`s_addr`, `e_addr`, `reserved`). -/
structure LimeHeader where
  version : Nat
  s_addr : Nat
  e_addr : Nat
  reserved : List Nat
deriving DecidableEq

/-- The distinct failure cases of the `binread` decode of `LimeHeader`:
the magic mismatch, then the three field `assert`s in field order. -/
inductive DecodeError where
  | badMagic
  | unsupportedVersion (v : Nat)
  | badRange
  | badReserved
deriving DecidableEq

/-- The `br(magic = 0x4C69_4D45_u32)` constant of the source: the u32 value
the first four bytes must equal when read little-endian. -/
def LIME_MAGIC : Nat := 0x4C694D45

/-- Size of the header, `LimeHeader::HEADER_SIZE_IN_BYTES`. -/
def HEADER_SIZE_IN_BYTES : Nat := 32

/-- Modulus of `u64` arithmetic. -/
def U64_MOD : Nat := 2 ^ 64

/-- First `u64` value whose `as i64` cast is negative (`2 ^ 63`). -/
def I64_HALF : Nat := 2 ^ 63

/-- Decode of `LimeHeader` by `binread` from a byte buffer, little-endian:
compare the leading 4 bytes (as a LE u32) with `LIME_MAGIC`, then read
`version` (assert `= 1`), `s_addr`, `e_addr` (assert `e_addr >= s_addr`),
and `reserved` (assert all zero), failing at the first violated check. -/
def decodeLimeHeader (buf : List Nat) : Res DecodeError LimeHeader :=
  if readLE (buf.take 4) ≠ LIME_MAGIC then
    .err .badMagic
  else if readLE ((buf.drop 4).take 4) ≠ 1 then
    .err (.unsupportedVersion (readLE ((buf.drop 4).take 4)))
  else if readLE ((buf.drop 16).take 8) < readLE ((buf.drop 8).take 8) then
    .err .badRange
  else if (buf.drop 24).take 8 ≠ List.replicate 8 0 then
    .err .badReserved
  else
    .ok ⟨readLE ((buf.drop 4).take 4), readLE ((buf.drop 8).take 8),
      readLE ((buf.drop 16).take 8), (buf.drop 24).take 8⟩

/-- A buffer fed to the header decoder by the walker: exactly 32 bytes,
each a byte value. -/
def ValidBuf (buf : List Nat) : Prop :=
  buf.length = HEADER_SIZE_IN_BYTES ∧ ∀ b ∈ buf, b < 256

/-- The method `LimeHeader::mem_section_size`:
`self.e_addr - self.s_addr + 1` in wrapping `u64` arithmetic. -/
def memSectionSize (h : LimeHeader) : Nat :=
  (h.e_addr % U64_MOD + (U64_MOD - h.s_addr % U64_MOD) + 1) % U64_MOD

/-- An open dump file: its contents and the current seek position. -/
structure FileState where
  data : List Nat
  pos : Nat
deriving DecidableEq

/-- The `memflow` `ErrorKind`s used by the source. -/
inductive ErrKind where
  | unableToReadFile
  | unableToSeekFile
deriving DecidableEq

/-- A `memflow` `Error(ErrorOrigin::Connector, kind)` as raised by the
source, together with the message the site passes to `log_error` (`none`
when the site does not log). -/
structure ConnError where
  kind : ErrKind
  logMsg : Option String
deriving DecidableEq

/-- Error raised when `args.target` is absent (`src/lib.rs:76-79`); the
spec's `MissingTarget` maps to this site. -/
def missingTargetError : ConnError :=
  ⟨.unableToReadFile, some "LiME file path not specified"⟩

/-- Error raised when `File::open` fails (`src/lib.rs:82`). -/
def openFileError : ConnError :=
  ⟨.unableToReadFile, none⟩

/-- Error raised when the `binread` decode fails (`src/lib.rs:55-58`). -/
def parseError : ConnError :=
  ⟨.unableToReadFile, some "Unable to parse the LiME file."⟩

/-- Error raised when the mid-walk seek fails (`src/lib.rs:97-100`). -/
def corruptSeekError : ConnError :=
  ⟨.unableToSeekFile, some "Corrupted LiME file"⟩

/-- The function `LimeHeader::next_header_from_file`: `read_exact` a
32-byte buffer.
If fewer than 32 bytes remain the read raises `UnexpectedEof` (having
consumed the remaining bytes), which the source maps to `Ok(None)`;
otherwise the buffer is decoded, a decode failure is collapsed to the
single `parseError`, and success yields the header with the cursor
advanced by 32. -/
def nextHeaderFromFile (f : FileState) :
    Res ConnError (Option LimeHeader × FileState) :=
  if f.pos + HEADER_SIZE_IN_BYTES ≤ f.data.length then
    match decodeLimeHeader ((f.data.drop f.pos).take HEADER_SIZE_IN_BYTES) with
    | .err _ => .err parseError
    | .ok h => .ok (some h, ⟨f.data, f.pos + HEADER_SIZE_IN_BYTES⟩)
  else
    .ok (none, ⟨f.data, max f.pos f.data.length⟩)

/-- The `u64 → i64` cast applied at `mem_section_size() as i64`
(`src/lib.rs:96`): values below `2 ^ 63` are unchanged, larger ones wrap
to negatives. -/
def i64OfU64 (v : Nat) : Int :=
  if v % U64_MOD < I64_HALF then ((v % U64_MOD : Nat) : Int)
  else ((v % U64_MOD : Nat) : Int) - (U64_MOD : Int)

/-- The call `Seek::seek(SeekFrom::Current(d))` on a file: fails when the resulting
position would be negative, otherwise moves there (positions past the end
of the file are allowed) and returns the new position.  The error value is
the one `create_connector` maps a mid-walk seek failure to. -/
def seekCurrent (f : FileState) (d : Int) :
    Res ConnError (Nat × FileState) :=
  if ((f.pos : Int) + d) < 0 then .err corruptSeekError
  else .ok (((f.pos : Int) + d).toNat, ⟨f.data, ((f.pos : Int) + d).toNat⟩)

/-- One `push_remap(s_addr, mem_section_size, offset)` call: the physical
base, the section length, and the absolute file offset of the payload. -/
structure Entry where
  base : Nat
  size : Nat
  fileOffset : Nat
deriving DecidableEq

/-- The `while let` loop of `create_connector` (`src/lib.rs:87-101`),
with explicit fuel (`none` = fuel exhausted; the source loop can run
unboundedly).  State: the file, the `push_remap` calls so far, and the
running `offset` variable.  Each iteration reads a header, adds 32 to
`offset` (wrapping u64), pushes the remap entry, and seeks forward by
`mem_section_size as i64`, storing the seek's returned position into
`offset`. -/
def walkLoop : Nat → FileState → List Entry → Nat →
    Option (Res ConnError (List Entry × FileState))
  | 0, _, _, _ => none
  | fuel + 1, f, map, offset =>
    match nextHeaderFromFile f with
    | .err e => some (.err e)
    | .ok (none, f') => some (.ok (map, f'))
    | .ok (some h, f') =>
      match seekCurrent f' (i64OfU64 (memSectionSize h)) with
      | .err e => some (.err e)
      | .ok (newOffset, f'') =>
        walkLoop fuel f''
          (map ++ [⟨h.s_addr, memSectionSize h,
            (offset + HEADER_SIZE_IN_BYTES) % U64_MOD⟩])
          newOffset

/-- The factory `create_connector` (`src/lib.rs:72-108`): `args.target` absent yields
`missingTargetError` before any file access; `File::open` failure (the
filesystem has no file at the path) yields `openFileError`; otherwise the
walk runs from position 0 and, on success, the file is rewound to
position 0 (`seek(SeekFrom::Start(0))`) before the memory map and file are
handed to `FileIoMemory::with_mem_map`.  The filesystem is a map from
paths to file contents; the fuel bounds the walk as in `walkLoop`. -/
def createConnector (fuel : Nat) (target : Option String)
    (fs : String → Option (List Nat)) :
    Option (Res ConnError (List Entry × FileState)) :=
  match target with
  | none => some (.err missingTargetError)
  | some path =>
    match fs path with
    | none => some (.err openFileError)
    | some data =>
      match walkLoop fuel ⟨data, 0⟩ [] 0 with
      | none => none
      | some (.err e) => some (.err e)
      | some (.ok (map, f)) => some (.ok (map, ⟨f.data, 0⟩))

/-- The 32-byte header of the repository's own test
`header_parser_works` (`src/lib.rs:139-142`): bytes
`69, 77, 105, 76` = `0x45, 0x4D, 0x69, 0x4C` = `E`,`M`,`i`,`L`, version 1,
`s_addr = 0x40000000`, `e_addr = 0xFBCFFFFF`, reserved all zero. -/
def rawHeader : List Nat :=
  [69, 77, 105, 76, 1, 0, 0, 0, 0, 0, 0, 64, 0, 0, 0, 0,
   255, 255, 207, 251, 0, 0, 0, 0, 0, 0, 0, 0, 0, 0, 0, 0]

/-- The header decoder rejects a buffer exactly when its leading four
bytes, read as a little-endian u32, differ from `LIME_MAGIC`; the later
checks never produce `badMagic`. -/
theorem decode_badMagic_iff (buf : List Nat) :
    decodeLimeHeader buf = .err .badMagic ↔
      readLE (buf.take 4) ≠ LIME_MAGIC := by
  unfold decodeLimeHeader
  split
  · simp_all
  · split
    · simp_all
    · split
      · simp_all
      · split <;> simp_all

/-- A header read with fewer than 32 bytes remaining returns `Ok(None)`
with the cursor at the end of the file (the `UnexpectedEof` arm of the
source). -/
theorem nextHeader_eof (f : FileState)
    (hshort : f.data.length < f.pos + HEADER_SIZE_IN_BYTES) :
    nextHeaderFromFile f = .ok (none, ⟨f.data, max f.pos f.data.length⟩) := by
  unfold nextHeaderFromFile
  rw [if_neg (by omega)]

/-- Inversion of a successful header read: 32 bytes were available, the
cursor advanced by 32, and the buffer at the old cursor decodes to the
returned header. -/
theorem nextHeader_some_inv (f : FileState) (h : LimeHeader) (f' : FileState)
    (hn : nextHeaderFromFile f = .ok (some h, f')) :
    f.pos + HEADER_SIZE_IN_BYTES ≤ f.data.length ∧
    f' = ⟨f.data, f.pos + HEADER_SIZE_IN_BYTES⟩ ∧
    decodeLimeHeader ((f.data.drop f.pos).take HEADER_SIZE_IN_BYTES) = .ok h := by
  unfold nextHeaderFromFile at hn
  by_cases hle : f.pos + HEADER_SIZE_IN_BYTES ≤ f.data.length
  · rw [if_pos hle] at hn
    rcases hdec : decodeLimeHeader ((f.data.drop f.pos).take HEADER_SIZE_IN_BYTES)
      with h0 | e
    · rw [hdec] at hn
      simp only [Res.ok.injEq, Prod.mk.injEq, Option.some.injEq] at hn
      exact ⟨hle, hn.2.symm, by rw [hn.1]⟩
    · rw [hdec] at hn
      simp at hn
  · rw [if_neg hle] at hn
    simp at hn

/-- The `u64 → i64` cast is the identity below `2 ^ 63`. -/
theorem i64OfU64_small (v : Nat) (hv : v < I64_HALF) : i64OfU64 v = (v : Int) := by
  have hm : v % U64_MOD = v := Nat.mod_eq_of_lt (by
    have : I64_HALF < U64_MOD := by norm_num [I64_HALF, U64_MOD]
    omega)
  unfold i64OfU64
  rw [hm, if_pos hv]

/-- A relative seek by a section size below `2 ^ 63` always succeeds and
moves the cursor forward by exactly that size, regardless of the file
length. -/
theorem seekCurrent_fwd (f : FileState) (v : Nat) (hv : v < I64_HALF) :
    seekCurrent f (i64OfU64 v) = .ok (f.pos + v, ⟨f.data, f.pos + v⟩) := by
  rw [i64OfU64_small v hv]
  unfold seekCurrent
  rw [if_neg (by omega)]
  have ht : ((f.pos : Int) + (v : Int)).toNat = f.pos + v := by omega
  rw [ht]

/-- When fewer than 32 bytes remain, one iteration of the walk loop ends
the walk successfully with the accumulated map unchanged. -/
theorem walkLoop_eof (fuel : Nat) (f : FileState) (map : List Entry)
    (offset : Nat) (hshort : f.data.length < f.pos + HEADER_SIZE_IN_BYTES) :
    walkLoop (fuel + 1) f map offset =
      some (.ok (map, ⟨f.data, max f.pos f.data.length⟩)) := by
  unfold walkLoop
  rw [nextHeader_eof f hshort]

/-- One successful iteration of the walk loop: after a header is read and
its section size is below `2 ^ 63`, the entry is appended and the loop
continues at cursor `payload_offset + payload_size`. -/
theorem walkLoop_cons_step (fuel : Nat) (f f' : FileState) (map : List Entry)
    (offset : Nat) (h : LimeHeader)
    (hn : nextHeaderFromFile f = .ok (some h, f'))
    (hsz : memSectionSize h < I64_HALF) :
    walkLoop (fuel + 1) f map offset =
      walkLoop fuel ⟨f'.data, f'.pos + memSectionSize h⟩
        (map ++ [⟨h.s_addr, memSectionSize h,
          (offset + HEADER_SIZE_IN_BYTES) % U64_MOD⟩])
        (f'.pos + memSectionSize h) := by
  conv_lhs => rw [walkLoop]
  rw [hn]
  dsimp only
  rw [seekCurrent_fwd f' (memSectionSize h) hsz]

/-- C1 (counterexample): the 32-byte buffer of the repository's own test
`header_parser_works`, whose first four bytes are
`0x45, 0x4D, 0x69, 0x4C` (`E`,`M`,`i`,`L`) and therefore differ from
`L`,`i`,`M`,`E`, is accepted by the decoder; while a buffer starting with
the bytes `0x4C, 0x69, 0x4D, 0x45` (`L`,`i`,`M`,`E` in file order, as the
claim demands) is rejected with a magic mismatch. -/
theorem lime_magic_byte_order_cex :
    decodeLimeHeader rawHeader =
      .ok ⟨1, 0x40000000, 0xFBCFFFFF, List.replicate 8 0⟩ ∧
    rawHeader.take 4 ≠ [0x4C, 0x69, 0x4D, 0x45] ∧
    decodeLimeHeader ([0x4C, 0x69, 0x4D, 0x45] ++ rawHeader.drop 4) =
      .err .badMagic := by
  decide

/-- C1 (amended): the decoder accepts a buffer's magic exactly when its
first four bytes are `0x45, 0x4D, 0x69, 0x4C` (ASCII `E`,`M`,`i`,`L` in
file order, the value `0x4C694D45` read as a little-endian u32); for every
buffer whose first four bytes differ from that sequence, decoding fails
with a magic-mismatch error. -/
theorem lime_magic_iff_emil_bytes (b0 b1 b2 b3 : Nat) (rest : List Nat)
    (h0 : b0 < 256) (h1 : b1 < 256) (h2 : b2 < 256) (h3 : b3 < 256) :
    decodeLimeHeader (b0 :: b1 :: b2 :: b3 :: rest) = .err .badMagic ↔
      ¬(b0 = 0x45 ∧ b1 = 0x4D ∧ b2 = 0x69 ∧ b3 = 0x4C) := by
  have hle : readLE ((b0 :: b1 :: b2 :: b3 :: rest).take 4) =
      b0 + 256 * b1 + 65536 * b2 + 16777216 * b3 := by
    simp [readLE]
    omega
  rw [decode_badMagic_iff, hle]
  unfold LIME_MAGIC
  omega

/-- C1 (witness for the amended theorem), at the `E`,`M`,`i`,`L` bytes
followed by the tail of the repository's test header. -/
theorem lime_magic_iff_emil_bytes_witness :
    (decodeLimeHeader (0x45 :: 0x4D :: 0x69 :: 0x4C :: rawHeader.drop 4) =
        .err .badMagic ↔
      ¬((0x45 : Nat) = 0x45 ∧ (0x4D : Nat) = 0x4D ∧ (0x69 : Nat) = 0x69 ∧
        (0x4C : Nat) = 0x4C)) :=
  lime_magic_iff_emil_bytes 0x45 0x4D 0x69 0x4C (rawHeader.drop 4)
    (by decide) (by decide) (by decide) (by decide)

/-- C2: for every fuel and every filesystem, `create_connector` with no
`target` argument returns the missing-target error (kind
`UnableToReadFile`, logged message "LiME file path not specified" — the
spec's `MissingTarget` site); the result does not depend on the
filesystem, so no file is opened. -/
theorem missing_target_no_file_access (fuel : Nat)
    (fs : String → Option (List Nat)) :
    createConnector fuel none fs = some (.err missingTargetError) := rfl

/-- C3 (counterexample): on a 16-byte file — the header read yields 16
bytes, strictly between 1 and 31, before the file ends — the walk does not
fail with any truncated-header error: `create_connector` succeeds with an
empty map. -/
theorem truncated_header_accepted_cex :
    createConnector 1 (some "dump.lime") (fun _ => some (List.replicate 16 0)) =
      some (.ok ([], ⟨List.replicate 16 0, 0⟩)) := by
  decide

/-- C3 (amended): at every file position from which the header read
yields between 0 and 31 bytes before the file ends, the walk treats the
short read as end-of-file and completes successfully with the table built
so far; no truncated-header error exists in the code. -/
theorem short_header_read_ends_walk (fuel : Nat) (f : FileState)
    (map : List Entry) (offset : Nat)
    (hshort : f.data.length < f.pos + HEADER_SIZE_IN_BYTES) :
    walkLoop (fuel + 1) f map offset =
      some (.ok (map, ⟨f.data, max f.pos f.data.length⟩)) :=
  walkLoop_eof fuel f map offset hshort

/-- C3 (witness for the amended theorem): a 16-byte file read from
position 0 ends the walk successfully. -/
theorem short_header_read_ends_walk_witness :
    walkLoop 1 ⟨List.replicate 16 0, 0⟩ [] 0 =
      some (.ok ([], ⟨List.replicate 16 0, 16⟩)) := by
  have := short_header_read_ends_walk 0 ⟨List.replicate 16 0, 0⟩ [] 0 (by decide)
  simpa using this

/-- The decoded form of `rawHeader`, matching the assertions of the test
`header_parser_works`. -/
def testHeader : LimeHeader := ⟨1, 0x40000000, 0xFBCFFFFF, List.replicate 8 0⟩

/-- Mutation of `rawHeader` with its first byte changed (`0x46` instead
of `0x45`). -/
def badMagicHeader : List Nat :=
  [70, 77, 105, 76, 1, 0, 0, 0, 0, 0, 0, 64, 0, 0, 0, 0,
   255, 255, 207, 251, 0, 0, 0, 0, 0, 0, 0, 0, 0, 0, 0, 0]

/-- Mutation of `rawHeader` with the version field set to 2. -/
def badVersionHeader : List Nat :=
  [69, 77, 105, 76, 2, 0, 0, 0, 0, 0, 0, 64, 0, 0, 0, 0,
   255, 255, 207, 251, 0, 0, 0, 0, 0, 0, 0, 0, 0, 0, 0, 0]

/-- Mutation of `rawHeader` with `s_addr` and `e_addr` swapped, so
`e_addr < s_addr`. -/
def badRangeHeader : List Nat :=
  [69, 77, 105, 76, 1, 0, 0, 0, 255, 255, 207, 251, 0, 0, 0, 0,
   0, 0, 0, 64, 0, 0, 0, 0, 0, 0, 0, 0, 0, 0, 0, 0]

/-- Mutation of `rawHeader` with a non-zero reserved byte. -/
def badReservedHeader : List Nat :=
  [69, 77, 105, 76, 1, 0, 0, 0, 0, 0, 0, 64, 0, 0, 0, 0,
   255, 255, 207, 251, 0, 0, 0, 0, 1, 0, 0, 0, 0, 0, 0, 0]

/-- A buffer with both a bad magic and a bad version. -/
def badMagicAndVersionHeader : List Nat :=
  [70, 77, 105, 76, 2, 0, 0, 0, 0, 0, 0, 64, 0, 0, 0, 0,
   255, 255, 207, 251, 0, 0, 0, 0, 0, 0, 0, 0, 0, 0, 0, 0]

/-- A buffer with both a bad version and a reversed address range. -/
def badVersionAndRangeHeader : List Nat :=
  [69, 77, 105, 76, 2, 0, 0, 0, 255, 255, 207, 251, 0, 0, 0, 0,
   0, 0, 0, 64, 0, 0, 0, 0, 0, 0, 0, 0, 0, 0, 0, 0]

/-- A buffer with both a reversed address range and bad reserved bytes. -/
def badRangeAndReservedHeader : List Nat :=
  [69, 77, 105, 76, 1, 0, 0, 0, 255, 255, 207, 251, 0, 0, 0, 0,
   0, 0, 0, 64, 0, 0, 0, 0, 1, 0, 0, 0, 0, 0, 0, 0]

/-- A decodable header whose range covers the whole 64-bit space:
`s_addr = 0`, `e_addr = 2 ^ 64 - 1` (all of the `e_addr` bytes 255). -/
def overflowHeader : List Nat :=
  [69, 77, 105, 76, 1, 0, 0, 0, 0, 0, 0, 0, 0, 0, 0, 0,
   255, 255, 255, 255, 255, 255, 255, 255, 0, 0, 0, 0, 0, 0, 0, 0]

/-- C4 (counterexample): a 32-byte file holding one valid header that
declares a `0xBBD00000`-byte payload which is entirely absent
(`payload_offset + payload_size = 0xBBD00020` far exceeds the file length
of 32).  The claim demands a truncated-payload failure; the code instead
seeks past the end of the file, keeps the entry, and completes
successfully. -/
theorem truncated_payload_accepted_cex :
    createConnector 2 (some "dump.lime") (fun _ => some rawHeader) =
      some (.ok ([⟨0x40000000, 0xBBD00000, 32⟩], ⟨rawHeader, 0⟩)) := by
  decide

/-- C4 (amended): after a record's header is read, if its section size is
below `2 ^ 63` and no further complete header fits behind the declared
payload (in particular whenever `payload_offset + payload_size` exceeds
the file length), the seek still succeeds, the entry is appended, the
cursor is set to `payload_offset + payload_size` — possibly past the end
of the file — and the walk then completes successfully; no
truncated-payload error exists in the code. -/
theorem payload_past_eof_walk_completes (fuel : Nat) (f f' : FileState)
    (map : List Entry) (offset : Nat) (h : LimeHeader)
    (hn : nextHeaderFromFile f = .ok (some h, f'))
    (hsz : memSectionSize h < I64_HALF)
    (hlast : f.data.length < f'.pos + memSectionSize h + HEADER_SIZE_IN_BYTES) :
    walkLoop (fuel + 2) f map offset =
      some (.ok (map ++ [⟨h.s_addr, memSectionSize h,
          (offset + HEADER_SIZE_IN_BYTES) % U64_MOD⟩],
        ⟨f.data, max (f'.pos + memSectionSize h) f.data.length⟩)) := by
  obtain ⟨hle, hf', hdec⟩ := nextHeader_some_inv f h f' hn
  subst hf'
  calc walkLoop (fuel + 2) f map offset
      = walkLoop (fuel + 1)
          ⟨f.data, f.pos + HEADER_SIZE_IN_BYTES + memSectionSize h⟩
          (map ++ [⟨h.s_addr, memSectionSize h,
            (offset + HEADER_SIZE_IN_BYTES) % U64_MOD⟩])
          (f.pos + HEADER_SIZE_IN_BYTES + memSectionSize h) :=
        walkLoop_cons_step (fuel + 1) f _ map offset h hn hsz
    _ = _ := walkLoop_eof fuel _ _ _ hlast

/-- C4 (witness for the amended theorem): the single-header 32-byte file;
the walk completes with the cursor parked at `0xBBD00020`, past the end
of the file. -/
theorem payload_past_eof_walk_completes_witness :
    walkLoop 2 ⟨rawHeader, 0⟩ [] 0 =
      some (.ok ([⟨0x40000000, 0xBBD00000, 32⟩], ⟨rawHeader, 0xBBD00020⟩)) := by
  have := payload_past_eof_walk_completes 0 ⟨rawHeader, 0⟩ ⟨rawHeader, 32⟩
    [] 0 testHeader (by decide) (by decide) (by decide)
  simpa using this

/-- C5 (counterexample): four files whose single header violates,
respectively, the magic, version, range and reserved checks all make
`create_connector` fail with the very same error value — kind
`UnableToReadFile`, message "Unable to parse the LiME file." — so the
surfaced error identifies no specific validation kind. -/
theorem validation_kinds_collapsed_cex :
    createConnector 1 (some "a.lime") (fun _ => some badMagicHeader) =
      some (.err parseError) ∧
    createConnector 1 (some "a.lime") (fun _ => some badVersionHeader) =
      some (.err parseError) ∧
    createConnector 1 (some "a.lime") (fun _ => some badRangeHeader) =
      some (.err parseError) ∧
    createConnector 1 (some "a.lime") (fun _ => some badReservedHeader) =
      some (.err parseError) := by
  decide

/-- C5 (amended): the decoder distinguishes the four validation failures
as distinct errors checked in the fixed order magic, version, range,
reserved (mutating each validated field of the otherwise valid test
header produces the documented decode error, and on doubly mutated
buffers the earlier check wins), but the walker collapses every decode
failure into the single error `UnableToReadFile` with message "Unable to
parse the LiME file." instead of a kind-identifying malformed-header
error. -/
theorem decode_kinds_ordered_walker_collapses :
    decodeLimeHeader badMagicHeader = .err .badMagic ∧
    decodeLimeHeader badVersionHeader = .err (.unsupportedVersion 2) ∧
    decodeLimeHeader badRangeHeader = .err .badRange ∧
    decodeLimeHeader badReservedHeader = .err .badReserved ∧
    decodeLimeHeader badMagicAndVersionHeader = .err .badMagic ∧
    decodeLimeHeader badVersionAndRangeHeader = .err (.unsupportedVersion 2) ∧
    decodeLimeHeader badRangeAndReservedHeader = .err .badRange ∧
    nextHeaderFromFile ⟨badMagicHeader, 0⟩ = .err parseError ∧
    nextHeaderFromFile ⟨badVersionHeader, 0⟩ = .err parseError ∧
    nextHeaderFromFile ⟨badRangeHeader, 0⟩ = .err parseError ∧
    nextHeaderFromFile ⟨badReservedHeader, 0⟩ = .err parseError := by
  decide

/-- C6 (counterexample): the decoder accepts the header with `s_addr = 0`
and `e_addr = 2 ^ 64 - 1` (the assertions only require
`e_addr ≥ s_addr`), but `mem_section_size` wraps: it returns 0, not the
exact value `e_addr − s_addr + 1 = 2 ^ 64`. -/
theorem mem_section_size_overflow_cex :
    decodeLimeHeader overflowHeader =
      .ok ⟨1, 0, 2 ^ 64 - 1, List.replicate 8 0⟩ ∧
    memSectionSize ⟨1, 0, 2 ^ 64 - 1, List.replicate 8 0⟩ = 0 ∧
    (2 ^ 64 - 1 : Nat) - 0 + 1 ≠ 0 := by
  decide

/-- Little-endian reading of a byte list is bounded by `256 ^ length`. -/
theorem readLE_lt (bs : List Nat) (hb : ∀ b ∈ bs, b < 256) :
    readLE bs < 256 ^ bs.length := by
  induction bs with
  | nil => simp [readLE]
  | cons b rest ih =>
    have h1 := ih (fun x hx => hb x (List.mem_cons_of_mem b hx))
    have h2 : b < 256 := hb b (List.mem_cons_self b rest)
    simp only [readLE, List.foldr_cons, List.length_cons, pow_succ] at h1 ⊢
    omega

/-- Inversion of a successful decode: the address fields are the
little-endian readings of bytes 8–15 and 16–23 and satisfy
`s_addr ≤ e_addr`. -/
theorem decode_ok_inv (buf : List Nat) (h : LimeHeader)
    (hd : decodeLimeHeader buf = .ok h) :
    h.s_addr = readLE ((buf.drop 8).take 8) ∧
    h.e_addr = readLE ((buf.drop 16).take 8) ∧
    h.s_addr ≤ h.e_addr := by
  unfold decodeLimeHeader at hd
  split at hd
  · simp at hd
  · split at hd
    · simp at hd
    · split at hd
      · simp at hd
      · split at hd
        · simp at hd
        · rename_i h1 h2 h3 h4
          simp only [Res.ok.injEq] at hd
          subst hd
          exact ⟨rfl, rfl, Nat.not_lt.mp h3⟩

/-- C6 (amended): for every header decoded from a 32-byte buffer (so
`e_addr ≥ s_addr` and both fields below `2 ^ 64`), `mem_section_size`
equals `e_addr − s_addr + 1` reduced modulo `2 ^ 64`; it equals the exact
difference whenever that value is below `2 ^ 64`, i.e. except at
`e_addr − s_addr = 2 ^ 64 − 1`. -/
theorem mem_section_size_mod_u64 (buf : List Nat) (h : LimeHeader)
    (hv : ValidBuf buf) (hd : decodeLimeHeader buf = .ok h) :
    memSectionSize h = (h.e_addr - h.s_addr + 1) % U64_MOD ∧
    (h.e_addr - h.s_addr + 1 < U64_MOD →
      memSectionSize h = h.e_addr - h.s_addr + 1) := by
  obtain ⟨hs, he, hse⟩ := decode_ok_inv buf h hd
  have hsub8 : ∀ b ∈ (buf.drop 8).take 8, b < 256 := fun b hbm =>
    hv.2 b (List.drop_subset _ _ (List.take_subset _ _ hbm))
  have hsub16 : ∀ b ∈ (buf.drop 16).take 8, b < 256 := fun b hbm =>
    hv.2 b (List.drop_subset _ _ (List.take_subset _ _ hbm))
  have hlen8 : ((buf.drop 8).take 8).length = 8 := by
    rw [List.length_take, List.length_drop, hv.1]
    decide
  have hlen16 : ((buf.drop 16).take 8).length = 8 := by
    rw [List.length_take, List.length_drop, hv.1]
    decide
  have hsB := readLE_lt _ hsub8
  have heB := readLE_lt _ hsub16
  rw [hlen8, ← hs] at hsB
  rw [hlen16, ← he] at heB
  have h256 : (256 : Nat) ^ 8 = 18446744073709551616 := by norm_num
  rw [h256] at hsB heB
  have hM : U64_MOD = 18446744073709551616 := by norm_num [U64_MOD]
  unfold memSectionSize
  rw [hM]
  constructor
  · omega
  · omega

/-- C6 (witness for the amended theorem), at the repository's test
header: the section size is computed exactly. -/
theorem mem_section_size_mod_u64_witness :
    memSectionSize testHeader =
      (testHeader.e_addr - testHeader.s_addr + 1) % U64_MOD ∧
    (testHeader.e_addr - testHeader.s_addr + 1 < U64_MOD →
      memSectionSize testHeader =
        testHeader.e_addr - testHeader.s_addr + 1) :=
  mem_section_size_mod_u64 rawHeader testHeader ⟨by decide, by decide⟩ (by decide)

/-- The file offsets a well-formed walk must produce: starting from
cursor `acc`, each record's payload begins at `acc + 32` and the next
record starts at `acc + 32 + size`.  `expectedOffsets 0 sizes` is the
list of cumulative sums of `(32 + size)` over the prior records, plus
32. -/
def expectedOffsets : Nat → List Nat → List Nat
  | _, [] => []
  | acc, s :: rest =>
    (acc + HEADER_SIZE_IN_BYTES) ::
      expectedOffsets (acc + HEADER_SIZE_IN_BYTES + s) rest

/-- Inversion of a successful relative seek: the returned position is the
old position plus the delta (as exact integers), and the file moves
there. -/
theorem seekCurrent_ok_inv (f : FileState) (d : Int) (n : Nat)
    (f'' : FileState) (hs : seekCurrent f d = .ok (n, f'')) :
    f'' = ⟨f.data, n⟩ ∧ (n : Int) = (f.pos : Int) + d := by
  unfold seekCurrent at hs
  split at hs
  · simp at hs
  · rename_i hge
    simp only [Res.ok.injEq, Prod.mk.injEq] at hs
    obtain ⟨hn, hf⟩ := hs
    subst hn
    exact ⟨hf.symm, by omega⟩

/-- Loop invariant of the record walk: a successful walk extends the
accumulated map with a suffix whose file offsets are exactly the
cumulative `(32 + size)` sums started at the entry cursor, provided every
recorded section size is below `2 ^ 63` and the file is shorter than
`2 ^ 64`. -/
theorem walkLoop_offsets (fuel : Nat) :
    ∀ (f : FileState) (map mapOut : List Entry) (offset : Nat)
      (fOut : FileState),
      f.pos = offset →
      f.data.length < U64_MOD →
      (∀ e ∈ mapOut, e.size < I64_HALF) →
      walkLoop fuel f map offset = some (.ok (mapOut, fOut)) →
      ∃ suffix, mapOut = map ++ suffix ∧
        suffix.map (fun e => e.fileOffset) =
          expectedOffsets offset (suffix.map (fun e => e.size)) := by
  induction fuel with
  | zero =>
    intro f map mapOut offset fOut hpos hlen hsz hw
    simp [walkLoop] at hw
  | succ n ih =>
    intro f map mapOut offset fOut hpos hlen hsz hw
    rw [walkLoop] at hw
    rcases hnh : nextHeaderFromFile f with v | e
    · obtain ⟨oh, f'⟩ := v
      rcases oh with _ | h
      · rw [hnh] at hw
        simp only [Option.some.injEq, Res.ok.injEq, Prod.mk.injEq] at hw
        obtain ⟨hmap, _⟩ := hw
        exact ⟨[], by simp [hmap], by simp [expectedOffsets]⟩
      · rw [hnh] at hw
        dsimp only at hw
        rcases hsk : seekCurrent f' (i64OfU64 (memSectionSize h)) with p | e
        · obtain ⟨newOff, f''⟩ := p
          rw [hsk] at hw
          dsimp only at hw
          obtain ⟨hle, hf', hdec⟩ := nextHeader_some_inv f h f' hnh
          obtain ⟨hf'', hnewOff⟩ :=
            seekCurrent_ok_inv f' (i64OfU64 (memSectionSize h)) newOff f'' hsk
          have hpos'' : f''.pos = newOff := by rw [hf'']
          have hdata'' : f''.data = f.data := by rw [hf'', hf']
          have hlen'' : f''.data.length < U64_MOD := by rw [hdata'']; exact hlen
          obtain ⟨suffix', hsplit, hoff⟩ :=
            ih f'' _ mapOut newOff fOut hpos'' hlen'' hsz hw
          have hmem : (⟨h.s_addr, memSectionSize h,
              (offset + HEADER_SIZE_IN_BYTES) % U64_MOD⟩ : Entry) ∈ mapOut := by
            rw [hsplit]
            simp
          have hszh : memSectionSize h < I64_HALF := hsz _ hmem
          have hnew : newOff = offset + HEADER_SIZE_IN_BYTES + memSectionSize h := by
            rw [i64OfU64_small _ hszh] at hnewOff
            have hfp : f'.pos = f.pos + HEADER_SIZE_IN_BYTES := by rw [hf']
            omega
          have hofflt : offset + HEADER_SIZE_IN_BYTES < U64_MOD := by omega
          refine ⟨⟨h.s_addr, memSectionSize h,
            (offset + HEADER_SIZE_IN_BYTES) % U64_MOD⟩ :: suffix', ?_, ?_⟩
          · rw [hsplit]
            simp
          · simp only [List.map_cons, expectedOffsets]
            rw [Nat.mod_eq_of_lt hofflt]
            refine congrArg _ ?_
            rw [hoff, hnew]
        · rw [hsk] at hw
          simp at hw
    · rw [hnh] at hw
      simp at hw

/-- The expected offset list is strictly increasing. -/
theorem expectedOffsets_chain (sizes : List Nat) :
    ∀ acc : Nat, List.Chain' (fun a b => a < b) (expectedOffsets acc sizes) := by
  induction sizes with
  | nil =>
    intro acc
    simp [expectedOffsets]
  | cons s rest ih =>
    intro acc
    rw [expectedOffsets]
    rcases rest with _ | ⟨t, rest'⟩
    · simp [expectedOffsets]
    · rw [expectedOffsets, List.chain'_cons]
      constructor
      · have hH : HEADER_SIZE_IN_BYTES = 32 := rfl
        omega
      · have := ih (acc + HEADER_SIZE_IN_BYTES + s)
        rw [expectedOffsets] at this
        exact this

/-- C7: whenever `create_connector` succeeds on a dump shorter than
`2 ^ 64` bytes whose recorded section sizes are below `2 ^ 63` (every
well-formed dump satisfies both), the translation entries are pushed in
file order, each entry's file offset is 32 bytes past its header — the
cumulative sum of `(32 + size)` over all prior records plus 32 — and the
offsets are strictly increasing. -/
theorem walker_offsets_cumulative (fuel : Nat) (path : String)
    (fs : String → Option (List Nat)) (data : List Nat) (map : List Entry)
    (f : FileState)
    (hfs : fs path = some data)
    (hlen : data.length < U64_MOD)
    (hsz : ∀ e ∈ map, e.size < I64_HALF)
    (hcc : createConnector fuel (some path) fs = some (.ok (map, f))) :
    map.map (fun e => e.fileOffset) =
      expectedOffsets 0 (map.map (fun e => e.size)) ∧
    List.Chain' (fun a b => a.fileOffset < b.fileOffset) map := by
  unfold createConnector at hcc
  dsimp only at hcc
  rw [hfs] at hcc
  dsimp only at hcc
  rcases hw : walkLoop fuel ⟨data, 0⟩ [] 0 with _ | r
  · rw [hw] at hcc
    simp at hcc
  · rcases r with m | e
    · obtain ⟨m', f₀⟩ := m
      rw [hw] at hcc
      simp only [Option.some.injEq, Res.ok.injEq, Prod.mk.injEq] at hcc
      obtain ⟨hm, _⟩ := hcc
      subst hm
      obtain ⟨sfx, hsplit, hoff⟩ :=
        walkLoop_offsets fuel ⟨data, 0⟩ [] m' 0 f₀ rfl hlen hsz hw
      rw [List.nil_append] at hsplit
      subst hsplit
      refine ⟨hoff, ?_⟩
      have hchain := expectedOffsets_chain (m'.map fun e => e.size) 0
      rw [← hoff] at hchain
      exact (List.chain'_map _).mp hchain
    · rw [hw] at hcc
      simp at hcc

/-- First record of the two-record demo dump: range `[0, 0]`, one payload
byte. -/
def demoHeader1 : List Nat :=
  [69, 77, 105, 76, 1, 0, 0, 0, 0, 0, 0, 0, 0, 0, 0, 0,
   0, 0, 0, 0, 0, 0, 0, 0, 0, 0, 0, 0, 0, 0, 0, 0]

/-- Second record of the two-record demo dump: range `[5, 6]`, two
payload bytes. -/
def demoHeader2 : List Nat :=
  [69, 77, 105, 76, 1, 0, 0, 0, 5, 0, 0, 0, 0, 0, 0, 0,
   6, 0, 0, 0, 0, 0, 0, 0, 0, 0, 0, 0, 0, 0, 0, 0]

/-- A well-formed two-record dump: header, 1 payload byte, header, 2
payload bytes (67 bytes in total). -/
def demoDump : List Nat := demoHeader1 ++ [170] ++ demoHeader2 ++ [1, 2]

/-- The table the walker builds from `demoDump`: payloads at file offsets
32 and `32 + 1 + 32 = 65`. -/
def demoMap : List Entry := [⟨0, 1, 32⟩, ⟨5, 2, 65⟩]

/-- C7 (witness), on the two-record demo dump. -/
theorem walker_offsets_cumulative_witness :
    demoMap.map (fun e => e.fileOffset) =
      expectedOffsets 0 (demoMap.map (fun e => e.size)) ∧
    List.Chain' (fun a b => a.fileOffset < b.fileOffset) demoMap :=
  walker_offsets_cumulative 3 "dump.lime" (fun _ => some demoDump) demoDump
    demoMap ⟨demoDump, 0⟩ rfl (by decide) (by decide) (by decide)

/-- C8: on an empty dump file, `create_connector` succeeds at the first
header read (0 bytes available means an immediate clean end-of-file): the
walk terminates with no entries and no error, and the resulting map is
empty. -/
theorem empty_file_empty_table (fuel : Nat) (path : String)
    (fs : String → Option (List Nat))
    (hfs : fs path = some [])
    (hfuel : 1 ≤ fuel) :
    createConnector fuel (some path) fs = some (.ok ([], ⟨[], 0⟩)) := by
  obtain ⟨n, rfl⟩ : ∃ n, fuel = n + 1 := ⟨fuel - 1, by omega⟩
  unfold createConnector
  dsimp only
  rw [hfs]
  dsimp only
  rw [walkLoop_eof n ⟨[], 0⟩ [] 0 (by decide)]

/-- C8 (witness), at fuel 1 and a filesystem holding an empty file. -/
theorem empty_file_empty_table_witness :
    createConnector 1 (some "dump.lime") (fun _ => some []) =
      some (.ok ([], ⟨[], 0⟩)) :=
  empty_file_empty_table 1 "dump.lime" (fun _ => some []) rfl (by decide)

/-- C9: whenever `create_connector` returns successfully, the file handed
to the reader has position 0 — the walk is followed by
`seek(SeekFrom::Start(0))` before `FileIoMemory::with_mem_map` is
called. -/
theorem success_restores_position_zero (fuel : Nat) (target : Option String)
    (fs : String → Option (List Nat)) (map : List Entry) (f : FileState)
    (hcc : createConnector fuel target fs = some (.ok (map, f))) :
    f.pos = 0 := by
  unfold createConnector at hcc
  rcases target with _ | path
  · simp at hcc
  · dsimp only at hcc
    rcases hfs : fs path with _ | data
    · rw [hfs] at hcc
      simp at hcc
    · rw [hfs] at hcc
      dsimp only at hcc
      rcases hw : walkLoop fuel ⟨data, 0⟩ [] 0 with _ | r
      · rw [hw] at hcc
        simp at hcc
      · rcases r with m | e
        · obtain ⟨m', f₀⟩ := m
          rw [hw] at hcc
          simp only [Option.some.injEq, Res.ok.injEq, Prod.mk.injEq] at hcc
          rw [← hcc.2]
        · rw [hw] at hcc
          simp at hcc

/-- C9 (witness): the success state of the empty-file connector has
position 0. -/
theorem success_restores_position_zero_witness :
    (FileState.mk [] 0).pos = 0 :=
  success_restores_position_zero 1 (some "dump.lime") (fun _ => some [])
    [] ⟨[], 0⟩ (by decide)

/-- C10: after appending a record's translation entry, for every record
whose section size is at most `2 ^ 63 − 1` (so the `u64 → i64` cast of
the relative seek amount is non-negative), the walker advances its
running offset to `payload_offset + payload_size` (the cursor after the
header plus the section size) and continues there. -/
theorem walker_advances_cursor_by_payload (fuel : Nat) (f f' : FileState)
    (map : List Entry) (offset : Nat) (h : LimeHeader)
    (hn : nextHeaderFromFile f = .ok (some h, f'))
    (hsz : memSectionSize h ≤ 2 ^ 63 - 1) :
    walkLoop (fuel + 1) f map offset =
      walkLoop fuel ⟨f'.data, f'.pos + memSectionSize h⟩
        (map ++ [⟨h.s_addr, memSectionSize h,
          (offset + HEADER_SIZE_IN_BYTES) % U64_MOD⟩])
        (f'.pos + memSectionSize h) :=
  walkLoop_cons_step fuel f f' map offset h hn (by
    have h1 : I64_HALF = 9223372036854775808 := by norm_num [I64_HALF]
    have h2 : (2 : Nat) ^ 63 - 1 = 9223372036854775807 := by norm_num
    omega)

/-- C10 (witness): one step on the single-header test file advances the
running offset to `32 + 0xBBD00000`. -/
theorem walker_advances_cursor_by_payload_witness :
    walkLoop 1 ⟨rawHeader, 0⟩ [] 0 =
      walkLoop 0 ⟨rawHeader, 32 + memSectionSize testHeader⟩
        [⟨testHeader.s_addr, memSectionSize testHeader,
          (0 + HEADER_SIZE_IN_BYTES) % U64_MOD⟩]
        (32 + memSectionSize testHeader) :=
  walker_advances_cursor_by_payload 0 ⟨rawHeader, 0⟩ ⟨rawHeader, 32⟩ [] 0
    testHeader (by decide) (by decide)

end MemflowLime
